import Mathlib

/-!
Verification of the static-analysis core of a Go route scanner.

The development shallowly embeds the scanner's data model and operations:
the `Endpoint` record and the deduplicating `add` closure of `ScanDir`, the
comment-directive parser (`scanAnnotationsFromFile`), the route-call
recognizer (the `ast.Inspect` body of `ScanDir`), the JSON body detector
(`DetectJSONBody` and its helpers), and the architecture-pattern detector
(`detectArchitecturePattern`).

Go values are modelled as follows: Go strings are Lean `String`s and every
`strings.*` helper used by the scanner is re-implemented over `String.data`
(so that all definitions compute by structural recursion); Go slices are
Lean lists; Go maps are association lists with overwrite-on-insert (map
iteration order, which Go randomizes, is determinized to insertion order -
no settled claim depends on it); the `float64` confidence scores are
modelled as rationals (all score arithmetic in the source is exact decimal
arithmetic); the process-global `globalProjectAnalysis` is passed as an
explicit `Option ProjectAnalysis` parameter.  Go source files arrive at the
scanner already parsed, so files are modelled as syntax trees: an AST
subset (`Expr`, `Stmt`, `TypeEx`) covering the node shapes the scanner
inspects, with comment groups given as the line lists that
`CommentGroup.Text` produces.  `ast.Inspect` pre-order traversal, including
the `return false` skip-children behaviour, is modelled by explicit
recursive walkers.
-/

namespace PostmanGen

/-! ## Go string primitives

Faithful ports, over `List Char`, of the `strings` / `unicode` functions the
scanner calls.  All inputs handled by the settled claims are ASCII; the
case-mapping functions use `Char.toUpper` / `Char.toLower`, which agree with
Go's on ASCII. -/

/-- String concatenation with definitionally transparent `data`. -/
def sApp (a b : String) : String := ⟨a.data ++ b.data⟩

/-- Go `strings.ToUpper`, ASCII case mapping. -/
def upStr (s : String) : String := ⟨s.data.map Char.toUpper⟩

/-- Go `strings.ToLower`, ASCII case mapping. -/
def lowStr (s : String) : String := ⟨s.data.map Char.toLower⟩

/-- Whitespace class of Go's `unicode.IsSpace` restricted to ASCII
(the characters matched by `\s` and trimmed by `strings.TrimSpace`). -/
def isGoSpace (c : Char) : Bool :=
  c = ' ' || c = '\t' || c = '\n' || c = '\x0b' || c = '\x0c' || c = '\r'

/-- Drop leading Go whitespace from a character list. -/
def dropSpacesL (s : List Char) : List Char := s.dropWhile isGoSpace

/-- Go `strings.TrimSpace`. -/
def goTrim (s : String) : String :=
  ⟨(dropSpacesL ((dropSpacesL s.data.reverse).reverse))⟩

/-- Boolean list-level test that `p` is a prefix of `s`. -/
def isPreL : List Char → List Char → Bool
  | [], _ => true
  | _ :: _, [] => false
  | p :: ps, c :: cs => (p == c) && isPreL ps cs

/-- Go `strings.HasPrefix`. -/
def hasPre (s p : String) : Bool := isPreL p.data s.data

/-- Go `strings.HasSuffix`. -/
def hasSuf (s p : String) : Bool := isPreL p.data.reverse s.data.reverse

/-- Boolean substring search on character lists (empty needle matches). -/
def subL (needle : List Char) : List Char → Bool
  | [] => isPreL needle []
  | c :: cs => isPreL needle (c :: cs) || subL needle cs

/-- Go `strings.Contains`. -/
def containsStr (s sub : String) : Bool := subL sub.data s.data

/-- Go `strings.Count` with a one-character non-empty separator. -/
def countChar (s : String) (c : Char) : Nat := s.data.countP (· == c)

/-- Go `strings.EqualFold`, restricted to ASCII simple folding. -/
def eqFold (a b : String) : Bool := lowStr a == lowStr b

/-- Go `strings.TrimPrefix`. -/
def trimPreStr (s p : String) : String :=
  if hasPre s p then ⟨s.data.drop p.data.length⟩ else s

/-- Go `strings.TrimSuffix`. -/
def trimSufStr (s p : String) : String :=
  if hasSuf s p then ⟨s.data.take (s.data.length - p.data.length)⟩ else s

/-- Go `strings.Trim` with a one-character cutset. -/
def trimCharStr (s : String) (c : Char) : String :=
  ⟨((s.data.dropWhile (· == c)).reverse.dropWhile (· == c)).reverse⟩

/-- Split a character list at every occurrence of separator `sep`
(Go `strings.Split` with a one-character separator). -/
def splitCharL (sep : Char) : List Char → List (List Char)
  | [] => [[]]
  | c :: cs =>
    let rest := splitCharL sep cs
    if c = sep then [] :: rest
    else match rest with
         | [] => [[c]]
         | r :: rs => (c :: r) :: rs

/-- Go `strings.Split` with a one-character separator, on strings. -/
def splitChar (s : String) (sep : Char) : List String :=
  (splitCharL sep s.data).map (fun l => ⟨l⟩)

/-- Go `strings.Join` with separator ",". -/
def joinComma : List String → String
  | [] => ""
  | [t] => t
  | t :: rest => sApp t (sApp "," (joinComma rest))

/-- Boolean membership of a string in a list of strings. -/
def memStr (s : String) : List String → Bool
  | [] => false
  | t :: ts => (s == t) || memStr s ts

/-- Separator class of Go `strings.Title`'s `isSeparator` (ASCII part):
letters, digits and underscore are not separators, everything else is. -/
def isSepGo (c : Char) : Bool :=
  if c.toNat ≤ 0x7F then
    !((('0' ≤ c && c ≤ '9') || ('a' ≤ c && c ≤ 'z') ||
       ('A' ≤ c && c ≤ 'Z') || c = '_'))
  else false

/-- Character-list worker for Go `strings.Title`, carrying the previous rune. -/
def titleAux (prev : Char) : List Char → List Char
  | [] => []
  | c :: cs => (if isSepGo prev then c.toUpper else c) :: titleAux c cs

/-- Go (deprecated) `strings.Title`: letters beginning a word are upper-cased. -/
def titleStr (s : String) : String := ⟨titleAux ' ' s.data⟩

example : upStr "get" = "GET" := by decide
example : goTrim "  a b  " = "a b" := by decide
example : containsStr "userRequest" "user" = true := by decide
example : titleStr "x-request-id" = "X-Request-Id" := by decide
example : titleStr "X-Request-ID" = "X-Request-ID" := by decide
example : splitChar "json:\"a\" b" ' ' = ["json:\"a\"", "b"] := by decide

/-! ## Go AST subset

The node shapes inspected by the scanner.  `Expr` mirrors `ast.Expr`
(identifiers, string basic literals - carried unquoted, as
`strconv.Unquote` returns them -, other basic literals, selector
expressions, call expressions, unary expressions whose operator the
scanner never examines, and composite literals); `TypeEx` mirrors the type
expressions consumed by `getTypeString` and the struct-type checks;
`Stmt` mirrors the statement forms the walkers traverse.  Function
literals are not represented, so statements never occur inside
expressions. -/

mutual
inductive TypeEx where
  | tIdent : String → TypeEx
  | tSel : TypeEx → String → TypeEx
  | tArray : TypeEx → TypeEx
  | tMap : TypeEx → TypeEx → TypeEx
  | tStar : TypeEx → TypeEx
  | tStruct : FieldList → TypeEx
  | tOther : TypeEx
inductive FieldList where
  | fnil : FieldList
  | fcons : FieldD → FieldList → FieldList
inductive FieldD where
  | mk : List String → TypeEx → Option String → FieldD
end

/-- Names of a struct field declaration (`ast.Field.Names`). -/
def FieldD.names : FieldD → List String
  | .mk ns _ _ => ns

/-- Type of a struct field declaration. -/
def FieldD.ty : FieldD → TypeEx
  | .mk _ t _ => t

/-- Raw tag literal of a struct field (backticks included), when present. -/
def FieldD.tag : FieldD → Option String
  | .mk _ _ tg => tg

mutual
inductive Expr where
  | eIdent : String → Expr
  | eStr : String → Expr
  | eLit : Expr
  | eSel : Expr → String → Expr
  | eCall : Expr → ExprList → Expr
  | eUnary : Expr → Expr
  | eComp : Option TypeEx → ExprList → Expr
inductive ExprList where
  | enil : ExprList
  | econs : Expr → ExprList → ExprList
end

/-- Length of an expression list. -/
def ExprList.len : ExprList → Nat
  | .enil => 0
  | .econs _ es => es.len + 1

/-- Element of an expression list at index `i`, when it exists. -/
def ExprList.get? : ExprList → Nat → Option Expr
  | .enil, _ => none
  | .econs e _, 0 => some e
  | .econs _ es, n + 1 => es.get? n

/-- Value specification of a `var` declaration (`ast.ValueSpec`). -/
structure VSpec where
  names : List String
  ty : Option TypeEx
  vals : ExprList

mutual
inductive Stmt where
  | sExpr : Expr → Stmt
  | sAssign : ExprList → ExprList → Stmt
  | sVar : List VSpec → Stmt
  | sRet : ExprList → Stmt
  | sBlock : StmtList → Stmt
  | sIf : Expr → StmtList → StmtList → Stmt
inductive StmtList where
  | snil : StmtList
  | scons : Stmt → StmtList → StmtList
end

/-- Function declaration: name and optional body (`ast.FuncDecl`). -/
structure FuncD where
  name : String
  body : Option StmtList

/-- Parsed Go source file as the scanner sees it: file path, comment
groups (each group given as the lines of `CommentGroup.Text`, split on
newlines), and function declarations. -/
structure GoFile where
  path : String
  comments : List (List String)
  funcs : List FuncD

/-! ## Data model: Endpoint and project analysis records -/

/-- GraphQL-specific endpoint information (`GraphQLInfo`). -/
structure GraphQLInfo where
  operation : String := ""
  schema : String := ""
  query : String := ""
  varsText : String := ""
deriving DecidableEq, Repr

/-- One discovered route (`Endpoint`).  The header map is an association
list with overwrite-on-insert. -/
structure Endpoint where
  method : String := ""
  path : String := ""
  sourceFile : String := ""
  handler : String := ""
  desc : String := ""
  headers : List (String × String) := []
  bodyRaw : String := ""
  tags : List String := []
  type_ : String := ""
  graphql : Option GraphQLInfo := none
deriving DecidableEq, Repr

/-- The fixed verb set (`verbSet`). -/
def verbList : List String :=
  ["GET", "POST", "PUT", "DELETE", "PATCH", "HEAD", "OPTIONS"]

/-- Information about a struct field as the detector records it
(`StructFieldInfo`). -/
structure StructFieldInfo where
  name : String
  type_ : String
  jsonTag : String
  required : Bool
deriving DecidableEq, Repr

/-- Analyzed struct information local to one function (`StructInfo`). -/
structure StructInfo where
  name : String
  fields : List StructFieldInfo
deriving DecidableEq, Repr

/-- Project-wide struct definition (`StructDefinition`); the claims only
consume the name and field list, the remaining metadata is carried for
completeness. -/
structure StructDefinition where
  name : String
  fields : List StructFieldInfo
  pkg : String := ""
  file : String := ""
deriving DecidableEq, Repr

/-- Detected architecture pattern (`ArchitecturePattern`); the `float64`
confidence is modelled as a rational. -/
structure ArchitecturePattern where
  type_ : String
  layers : List String
  dtoPatterns : List String
  confidence : ℚ
deriving DecidableEq, Repr

/-- Package metadata (`PackageInfo`) restricted to the fields the
architecture detector consumes. -/
structure PackageInfo where
  name : String
  imports : List String
deriving DecidableEq, Repr

/-- Whole-project index (`ProjectAnalysis`) restricted to the fields the
body detector and architecture detector consume.  `structs` and
`packages` are association lists keyed as in the source (struct keys are
package-qualified names). -/
structure ProjectAnalysis where
  structs : List (String × StructDefinition)
  packages : List (String × PackageInfo)
  archPattern : ArchitecturePattern
deriving DecidableEq, Repr

/-- Result of body detection for one function (`BodyDetectionResult`). -/
structure BodyDetectionResult where
  hasBody : Bool := false
  bodyExample : String := ""
  structName : String := ""
deriving DecidableEq, Repr

/-! ## Body detector (`body_detector.go`) -/

/-- Port of `getTypeString`: canonical textual rendering of a type
expression.  Struct types fall into the default branch. -/
def getTypeString : TypeEx → String
  | .tIdent n => n
  | .tSel x sel => sApp (getTypeString x) (sApp "." sel)
  | .tArray elt => sApp "[]" (getTypeString elt)
  | .tMap k v => sApp "map[" (sApp (getTypeString k) (sApp "]" (getTypeString v)))
  | .tStar x => sApp "*" (getTypeString x)
  | .tStruct _ => "interface\x7b\x7d"
  | .tOther => "interface\x7b\x7d"

/-- Processing of one space-separated tag part inside `extractJSONTag`:
strip the `json:` marker, trim quotes, cut at the first comma. -/
def jsonPartOf (part : String) : String :=
  let jp := trimPreStr part "json:"
  let jp := trimCharStr jp '"'
  ⟨jp.data.takeWhile (· ≠ ',')⟩

/-- Loop of `extractJSONTag` over the space-separated tag parts: the first
part with the `json:` marker whose processed key is neither `-` nor empty
is returned; otherwise scanning continues. -/
def extractJSONTagParts : List String → String
  | [] => ""
  | p :: ps =>
    if hasPre p "json:" then
      let jp := jsonPartOf p
      if jp ≠ "-" ∧ jp ≠ "" then jp else extractJSONTagParts ps
    else extractJSONTagParts ps

/-- Port of `extractJSONTag`: recover the JSON field name from a struct
tag (backticks already trimmed by the callers). -/
def extractJSONTag (tag : String) : String :=
  extractJSONTagParts (splitChar tag ' ')

/-- Port of the per-field work of `analyzeInlineStruct`. -/
def inlineFieldInfo (f : FieldD) : StructFieldInfo :=
  let name := match f.names with | [] => "" | n :: _ => n
  let ty := getTypeString f.ty
  let jt := match f.tag with
    | some tv =>
      let t := trimCharStr tv '`'
      if containsStr t "json:" then extractJSONTag t else ""
    | none => ""
  let jt := if jt = "" then lowStr name else jt
  ⟨name, ty, jt, true⟩

/-- Field loop of `analyzeInlineStruct`. -/
def analyzeInlineStructFields : FieldList → List StructFieldInfo
  | .fnil => []
  | .fcons f fs => inlineFieldInfo f :: analyzeInlineStructFields fs

/-- Port of `analyzeInlineStruct`. -/
def analyzeInlineStruct (st : FieldList) (name : String) : StructInfo :=
  ⟨name, analyzeInlineStructFields st⟩

/-- Port of `analyzeStructField` from the project analyzer: embedded
fields keep an empty serialization key; named fields fall back to the
lower-cased field name when the tag yields nothing. -/
def analyzeStructField (f : FieldD) : List StructFieldInfo :=
  let fieldType := getTypeString f.ty
  match f.names with
  | [] => [⟨getTypeString f.ty, fieldType, "", true⟩]
  | ns => ns.map (fun n =>
      let jt := match f.tag with
        | some tv =>
          let j := extractJSONTag (trimCharStr tv '`')
          if j = "" then lowStr n else j
        | none => lowStr n
      (⟨n, fieldType, jt, true⟩ : StructFieldInfo))

/-- Port of `generateValueForType` on the character list of the type name.
The leading `[]` case is matched structurally first; this is
semantics-preserving because no equality branch of the source accepts a
name beginning with `[`. -/
def genValL : List Char → String
  | '[' :: ']' :: rest => sApp "[" (sApp (genValL rest) "]")
  | l =>
    if l = "string".data then "\"string\""
    else if l = "int".data || l = "int32".data || l = "int64".data ||
            l = "uint".data || l = "uint32".data || l = "uint64".data then "0"
    else if l = "float32".data || l = "float64".data then "0.0"
    else if l = "bool".data then "false"
    else if isPreL "map[".data l then "\x7b\x7d"
    else if l = "interface\x7b\x7d".data || l = "any".data then "\"string\""
    else "\"string\""

/-- Port of `generateValueForType`. -/
def generateValueForType (goType : String) : String := genValL goType.data

/-- One `"key":value` pair as `generateJSONFromStruct` renders it. -/
def jsonPairLocal (f : StructFieldInfo) : String :=
  sApp "\"" (sApp f.jsonTag (sApp "\":" (generateValueForType f.type_)))

/-- Port of `generateJSONFromStruct` (local struct info; no exclusion
handling). -/
def generateJSONFromStruct (si : StructInfo) : String :=
  if si.fields.length = 0 then "\x7b\x7d"
  else sApp "\x7b" (sApp (joinComma (si.fields.map jsonPairLocal)) "\x7d")

/-- Field loop of `generateJSONFromProjectStruct`: fields whose recorded
key is `-` are skipped, an empty key falls back to the lower-cased field
name. -/
def projPairs : List StructFieldInfo → List String
  | [] => []
  | f :: fs =>
    if f.jsonTag = "-" then projPairs fs
    else
      let jt := if f.jsonTag = "" then lowStr f.name else f.jsonTag
      sApp "\"" (sApp jt (sApp "\":" (generateValueForType f.type_))) :: projPairs fs

/-- Port of `generateJSONFromProjectStruct`. -/
def generateJSONFromProjectStruct (sd : StructDefinition) : String :=
  if sd.fields.length = 0 then "\x7b\x7d"
  else sApp "\x7b" (sApp (joinComma (projPairs sd.fields)) "\x7d")

/-- Port of `generateBodyByVariableName`: the fixed variable-name shape
table, keyed by substring tests on the lower-cased identifier. -/
def generateBodyByVariableName (varName : String) : String :=
  let lowerName := lowStr varName
  if containsStr lowerName "user" then
    "\x7b\"name\":\"string\",\"email\":\"string\",\"id\":\"string\"\x7d"
  else if containsStr lowerName "create" || containsStr lowerName "post" then
    "\x7b\"name\":\"string\",\"value\":\"string\",\"type\":\"string\"\x7d"
  else if containsStr lowerName "update" || containsStr lowerName "put" ||
          containsStr lowerName "patch" then
    "\x7b\"id\":\"string\",\"name\":\"string\",\"value\":\"string\"\x7d"
  else if containsStr lowerName "delete" then
    "\x7b\"id\":\"string\",\"reason\":\"string\"\x7d"
  else if containsStr lowerName "request" || containsStr lowerName "req" then
    "\x7b\"data\":\"string\",\"parameters\":\x7b\x7d\x7d"
  else
    "\x7b\"id\":\"string\",\"name\":\"string\",\"value\":\"string\",\"timestamp\":\"2024-01-01T00:00:00Z\"\x7d"

/-- The DTO suffix list of `isStructNameMatch`. -/
def dtoSuffixes : List String :=
  ["request", "req", "dto", "model", "entity", "response", "resp"]

/-- Suffix-stripping loop of `isStructNameMatch` (first matching suffix is
removed, then the loop breaks). -/
def stripDtoSuffix : List String → String → String
  | [], s => s
  | suf :: rest, s => if hasSuf s suf then trimSufStr s suf else stripDtoSuffix rest s

/-- Port of `isStructNameMatch` (both arguments arrive lower-cased from
the caller). -/
def isStructNameMatch (varName structName : String) : Bool :=
  let clean := stripDtoSuffix dtoSuffixes structName
  containsStr varName clean || containsStr clean varName

/-- Port of `checkGinJSONBinding`. -/
def checkGinJSONBinding : Expr → Bool
  | .eCall (.eSel _ m) _ =>
    m = "ShouldBindJSON" || m = "BindJSON" || m = "ShouldBind" || m = "Bind"
  | _ => false

/-- Port of `checkJSONDecoder`: a `.Decode` whose receiver is itself a
call to a `NewDecoder` selector. -/
def checkJSONDecoder : Expr → Bool
  | .eCall (.eSel (.eCall (.eSel _ i) _) m) _ => m = "Decode" && i = "NewDecoder"
  | _ => false

/-- Port of `checkJSONUnmarshal`. -/
def checkJSONUnmarshal : Expr → Bool
  | .eCall (.eSel (.eIdent x) m) _ => x = "json" && m = "Unmarshal"
  | _ => false

/-- Port of `checkIOReadAll`. -/
def checkIOReadAll : Expr → Bool
  | .eCall (.eSel (.eIdent x) m) _ => x = "io" && m = "ReadAll"
  | _ => false

/-- A call matches one of the four body idioms.  In the source each
matching branch performs the identical assignment, so only the
disjunction is observable. -/
def isBodyIdiom (e : Expr) : Bool :=
  checkGinJSONBinding e || checkJSONDecoder e || checkJSONUnmarshal e || checkIOReadAll e

/-- Match condition of the struct loops in
`generateBodyFromProjectAnalysis`. -/
def structMatchCond (varName structName : String) : Bool :=
  let ls := lowStr structName
  let lv := lowStr varName
  containsStr ls lv || containsStr lv ls || isStructNameMatch lv ls

/-- First struct of the project index matching a variable name (the Go
code iterates a map; iteration is determinized to insertion order - the
settled claims only rely on the no-match case, which is
order-independent). -/
def findStructMatch (structs : List (String × StructDefinition))
    (varName : String) : Option StructDefinition :=
  match structs with
  | [] => none
  | (_, sd) :: rest =>
    if structMatchCond varName sd.name then some sd else findStructMatch rest varName

/-- Association-list lookup (Go map read). -/
def alookup {α : Type} (m : List (String × α)) (k : String) : Option α :=
  match m with
  | [] => none
  | (k2, v) :: rest => if k = k2 then some v else alookup rest k

/-- Extract the identifier addressed by argument `i` when that argument is
a unary expression over a bare identifier. -/
def argUnaryIdent (args : ExprList) (i : Nat) : Option String :=
  match args.get? i with
  | some (.eUnary (.eIdent v)) => some v
  | _ => none

/-- DTO-pattern loop of `generateBodyFromProjectAnalysis`: patterns whose
lower-cased name contains the target but miss the struct index are
skipped. -/
def dtoLoop (pa : ProjectAnalysis) (target : String) : List String → String
  | [] => ""
  | dto :: rest =>
    if containsStr (lowStr dto) (lowStr target) then
      match alookup pa.structs dto with
      | some sd => generateJSONFromProjectStruct sd
      | none => dtoLoop pa target rest
    else dtoLoop pa target rest

/-- Port of `generateBodyFromProjectAnalysis`: try a fuzzy struct match on
the first argument's identifier, then on the second (the `json.Unmarshal`
target), then fall back to the DTO-pattern loop; empty string signals no
result. -/
def generateBodyFromProjectAnalysis (c : Expr) (pa : ProjectAnalysis) : String :=
  match c with
  | .eCall _ args =>
    if args.len > 0 then
      let r0 : Option StructDefinition :=
        match argUnaryIdent args 0 with
        | some v => findStructMatch pa.structs v
        | none => none
      match r0 with
      | some sd => generateJSONFromProjectStruct sd
      | none =>
        let tgt0 : String := (argUnaryIdent args 0).getD ""
        if args.len > 1 then
          let r1 : Option StructDefinition :=
            match argUnaryIdent args 1 with
            | some v => findStructMatch pa.structs v
            | none => none
          match r1 with
          | some sd => generateJSONFromProjectStruct sd
          | none =>
            let tgt := (argUnaryIdent args 1).getD tgt0
            if tgt ≠ "" then dtoLoop pa tgt pa.archPattern.dtoPatterns else ""
        else
          if tgt0 ≠ "" then dtoLoop pa tgt0 pa.archPattern.dtoPatterns else ""
    else ""
  | _ => ""

/-- Argument fallback of `generateSmartBodyExample`: variable-name lookup
on the first (or, for `json.Unmarshal`, second) address-of argument, then
the fixed generic shape. -/
def fallbackByArgs (c : Expr) : String :=
  match c with
  | .eCall _ args =>
    if args.len > 0 then
      match argUnaryIdent args 0 with
      | some v => generateBodyByVariableName v
      | none =>
        if args.len > 1 then
          match argUnaryIdent args 1 with
          | some v => generateBodyByVariableName v
          | none => "\x7b\"data\":\"string\",\"parameters\":\x7b\x7d\x7d"
        else "\x7b\"data\":\"string\",\"parameters\":\x7b\x7d\x7d"
    else "\x7b\"data\":\"string\",\"parameters\":\x7b\x7d\x7d"
  | _ => "\x7b\"data\":\"string\",\"parameters\":\x7b\x7d\x7d"

/-- Port of `generateSmartBodyExample`: project-wide struct match first
(when the global analysis is present), then the local struct hint, then
the argument fallback. -/
def generateSmartBodyExample (a? : Option ProjectAnalysis) (c : Expr)
    (si : Option StructInfo) : String :=
  let pb := match a? with
    | some pa => generateBodyFromProjectAnalysis c pa
    | none => ""
  if pb ≠ "" then pb
  else
    match si with
    | some info =>
      if info.fields.length > 0 then generateJSONFromStruct info
      else fallbackByArgs c
    | none => fallbackByArgs c

/-- First struct-typed `var` specification of a declaration, as the
`GenDecl` case of `scanStructUsage` finds it. -/
def findStructSpec : List VSpec → Option FieldList
  | [] => none
  | vs :: rest =>
    match vs.ty with
    | some (.tStruct fl) => some fl
    | _ => findStructSpec rest

/-- First struct-typed composite literal among assignment right-hand
sides, as the `AssignStmt` case of `scanStructUsage` finds it. -/
def findStructCompLit : ExprList → Option FieldList
  | .enil => none
  | .econs e rest =>
    match e with
    | .eComp (some (.tStruct fl)) _ => some fl
    | _ => findStructCompLit rest

mutual
/-- Statement walker of `scanStructUsage`.  The `ast.Inspect` triggers are
`GenDecl` and `AssignStmt` nodes; a trigger replaces the current result
and skips the node's children (which contain no further triggers), and the
walk continues with later statements, so the last trigger wins.
Expressions are not descended into because, without function literals,
they cannot contain statements. -/
def suStmt (cur : Option StructInfo) : Stmt → Option StructInfo
  | .sVar specs =>
    match findStructSpec specs with
    | some fl => some (analyzeInlineStruct fl "InlineStruct")
    | none => cur
  | .sAssign _ rhs =>
    match findStructCompLit rhs with
    | some fl => some (analyzeInlineStruct fl "InlineStruct")
    | none => cur
  | .sBlock ss => suStmtsGo cur ss
  | .sIf _ t e => suStmtsGo (suStmtsGo cur t) e
  | _ => cur

/-- Statement-list walker of `scanStructUsage`. -/
def suStmtsGo (cur : Option StructInfo) : StmtList → Option StructInfo
  | .snil => cur
  | .scons s ss => suStmtsGo (suStmt cur s) ss
end

/-- Port of `scanStructUsage` over a function body. -/
def scanStructUsage (body : StmtList) : Option StructInfo := suStmtsGo none body

mutual
/-- Expression walker of `DetectJSONBody`'s `ast.Inspect`: pre-order; a
call matching a body idiom overwrites the result and its children are
skipped (the inspector returns `false`); the walk continues with later
siblings. -/
def detExpr (a? : Option ProjectAnalysis) (si : Option StructInfo)
    (r : BodyDetectionResult) : Expr → BodyDetectionResult
  | .eCall f args =>
    if isBodyIdiom (.eCall f args) then
      { r with hasBody := true,
               bodyExample := generateSmartBodyExample a? (.eCall f args) si }
    else detExprs a? si (detExpr a? si r f) args
  | .eSel x _ => detExpr a? si r x
  | .eUnary x => detExpr a? si r x
  | .eComp _ elts => detExprs a? si r elts
  | _ => r

/-- Expression-list walker of `DetectJSONBody`'s `ast.Inspect`. -/
def detExprs (a? : Option ProjectAnalysis) (si : Option StructInfo)
    (r : BodyDetectionResult) : ExprList → BodyDetectionResult
  | .enil => r
  | .econs e es => detExprs a? si (detExpr a? si r e) es
end

/-- Walk of the initializer expressions of `var` specifications. -/
def detSpecs (a? : Option ProjectAnalysis) (si : Option StructInfo)
    (r : BodyDetectionResult) : List VSpec → BodyDetectionResult
  | [] => r
  | vs :: rest => detSpecs a? si (detExprs a? si r vs.vals) rest

mutual
/-- Statement walker of `DetectJSONBody`'s `ast.Inspect`. -/
def detStmt (a? : Option ProjectAnalysis) (si : Option StructInfo)
    (r : BodyDetectionResult) : Stmt → BodyDetectionResult
  | .sExpr e => detExpr a? si r e
  | .sAssign lhs rhs => detExprs a? si (detExprs a? si r lhs) rhs
  | .sVar specs => detSpecs a? si r specs
  | .sRet es => detExprs a? si r es
  | .sBlock ss => detStmts a? si r ss
  | .sIf c t e => detStmts a? si (detStmts a? si (detExpr a? si r c) t) e

/-- Statement-list walker of `DetectJSONBody`'s `ast.Inspect`. -/
def detStmts (a? : Option ProjectAnalysis) (si : Option StructInfo)
    (r : BodyDetectionResult) : StmtList → BodyDetectionResult
  | .snil => r
  | .scons s ss => detStmts a? si (detStmt a? si r s) ss
end

/-- Port of `DetectJSONBody`, with the process-global project analysis as
an explicit parameter. -/
def DetectJSONBody (a? : Option ProjectAnalysis) (fn : FuncD) : BodyDetectionResult :=
  match fn.body with
  | none => {}
  | some ss => detStmts a? (scanStructUsage ss) {} ss

/-- Port of `DetectBodyFromFunction`. -/
def DetectBodyFromFunction (a? : Option ProjectAnalysis) (fn : FuncD) : String :=
  let r := DetectJSONBody a? fn
  if r.hasBody then r.bodyExample else ""

/-! Sanity checks replicating the repository's own unit tests for the
value synthesizer, tag extractor and variable-name table. -/

example : generateValueForType "string" = "\"string\"" := by decide
example : generateValueForType "int" = "0" := by decide
example : generateValueForType "float64" = "0.0" := by decide
example : generateValueForType "bool" = "false" := by decide
example : generateValueForType "[]string" = "[\"string\"]" := by decide
example : generateValueForType "[]int" = "[0]" := by decide
example : generateValueForType "map[string]interface\x7b\x7d" = "\x7b\x7d" := by decide
example : generateValueForType "interface\x7b\x7d" = "\"string\"" := by decide
example : generateValueForType "any" = "\"string\"" := by decide
example : generateValueForType "CustomType" = "\"string\"" := by decide

example : extractJSONTag "json:\"name\"" = "name" := by decide
example : extractJSONTag "json:\"full_name\"" = "full_name" := by decide
example : extractJSONTag "json:\"name,omitempty\"" = "name" := by decide
example : extractJSONTag "json:\",omitempty\"" = "" := by decide
example : extractJSONTag "json:\"-\"" = "" := by decide
example : extractJSONTag "json:\"name\" validate:\"required\"" = "name" := by decide
example : extractJSONTag "validate:\"required\" json:\"name\"" = "name" := by decide
example : extractJSONTag "xml:\"name\"" = "" := by decide
example : extractJSONTag "" = "" := by decide

example : generateBodyByVariableName "userRequest" =
    "\x7b\"name\":\"string\",\"email\":\"string\",\"id\":\"string\"\x7d" := by decide
example : generateBodyByVariableName "postData" =
    "\x7b\"name\":\"string\",\"value\":\"string\",\"type\":\"string\"\x7d" := by decide
example : generateBodyByVariableName "patchRequest" =
    "\x7b\"id\":\"string\",\"name\":\"string\",\"value\":\"string\"\x7d" := by decide
example : generateBodyByVariableName "deleteRequest" =
    "\x7b\"id\":\"string\",\"reason\":\"string\"\x7d" := by decide
example : generateBodyByVariableName "req" =
    "\x7b\"data\":\"string\",\"parameters\":\x7b\x7d\x7d" := by decide
example : generateBodyByVariableName "payload" =
    "\x7b\"id\":\"string\",\"name\":\"string\",\"value\":\"string\",\"timestamp\":\"2024-01-01T00:00:00Z\"\x7d" := by decide

/-! ## Comment directive matchers

The nine `(?i)` regular expressions of the scanner, implemented as
deterministic parsers.  Each pattern starts with a literal keyword, so the
leftmost regex match is found by trying the tail parser at each
case-insensitive keyword occurrence from the left; within a tail the
greedy character classes are pairwise disjoint at every boundary, so
maximal-munch parsing coincides with the backtracking regex semantics
(where a final `.+`/`[^:]+` would backtrack into a preceding `\s+`/`\s*`
only when everything left is whitespace, the captures agree after the
`TrimSpace` the scanner applies to them). -/

/-- ASCII letter class (`[A-Z]` under `(?i)`). -/
def isAsciiLetter (c : Char) : Bool := ('a' ≤ c && c ≤ 'z') || ('A' ≤ c && c ≤ 'Z')

/-- Character class of the `@tag` token: `[A-Za-z0-9_.\-\/]`. -/
def tagChar (c : Char) : Bool :=
  isAsciiLetter c || ('0' ≤ c && c ≤ '9') || c = '_' || c = '.' || c = '-' || c = '/'

/-- Parse `\s+(\S+)(?:\s+(.*))?$`: a whitespace-separated path token and a
trimmed optional description. -/
def pathDescFrom (s : List Char) : Option (String × String) :=
  match s with
  | [] => none
  | c :: cs =>
    if isGoSpace c then
      let s3 := dropSpacesL cs
      let path := s3.takeWhile (fun ch => !(isGoSpace ch))
      let s4 := s3.drop path.length
      if path ≠ [] then some (⟨path⟩, goTrim ⟨s4⟩) else none
    else none

/-- Parse the tail of `@route`/`@rest`:
`\s+([A-Za-z]+)\s+(\S+)(?:\s+(.*))?$`. -/
def routeTail (s : List Char) : Option (String × String × String) :=
  match s with
  | [] => none
  | c :: cs =>
    if isGoSpace c then
      let s1 := dropSpacesL cs
      let meth := s1.takeWhile isAsciiLetter
      if meth ≠ [] then
        match pathDescFrom (s1.drop meth.length) with
        | some (p, d) => some (⟨meth⟩, p, d)
        | none => none
      else none
    else none

/-- Case-insensitive alternation `(query|mutation|subscription)`,
returning the canonical lower-cased operation the scanner derives from
the capture. -/
def opHead (s : List Char) : Option (String × List Char) :=
  if isPreL "query".data (s.map Char.toLower) then some ("query", s.drop 5)
  else if isPreL "mutation".data (s.map Char.toLower) then some ("mutation", s.drop 8)
  else if isPreL "subscription".data (s.map Char.toLower) then some ("subscription", s.drop 12)
  else none

/-- Parse the tail of `@graphql`:
`\s+(query|mutation|subscription)\s+(\S+)(?:\s+(.*))?$`. -/
def graphqlTail (s : List Char) : Option (String × String × String) :=
  match s with
  | [] => none
  | c :: cs =>
    if isGoSpace c then
      match opHead (dropSpacesL cs) with
      | some (op, s2) =>
        match pathDescFrom s2 with
        | some (p, d) => some (op, p, d)
        | none => none
      | none => none
    else none

/-- Parse the tail of `@header`: `\s+([^:]+):\s*(.+)$`; yields the trimmed
key (text before the first colon) and trimmed value (text after it). -/
def headerTail (s : List Char) : Option (String × String) :=
  match s with
  | [] => none
  | c :: _ =>
    if isGoSpace c then
      let k := s.takeWhile (· ≠ ':')
      match s.drop k.length with
      | ':' :: vs =>
        if 2 ≤ k.length ∧ vs ≠ [] then some (goTrim ⟨k⟩, goTrim ⟨vs⟩) else none
      | _ => none
    else none

/-- Parse the tail of `@body`/`@schema`/`@query`/`@variables`:
`\s+(.+)$`; matches when a whitespace character and at least one further
character follow, capturing the trimmed remainder. -/
def textTail (s : List Char) : Option String :=
  match s with
  | c :: _ :: _ => if isGoSpace c then some (goTrim ⟨s⟩) else none
  | _ => none

/-- Parse the tail of `@tag`: `\s+([A-Za-z0-9_.\-\/]+)$`; the token must
extend to the end of the line. -/
def tagTail (s : List Char) : Option String :=
  match s with
  | [] => none
  | c :: cs =>
    if isGoSpace c then
      let s1 := dropSpacesL cs
      let tok := s1.takeWhile tagChar
      if tok ≠ [] ∧ s1.drop tok.length = [] then some ⟨tok⟩ else none
    else none

/-- Leftmost-match driver: try the tail parser after each case-insensitive
occurrence of the keyword, scanning left to right. -/
def searchOcc {α : Type} (kw : List Char) (tailP : List Char → Option α) :
    List Char → Option α
  | [] => none
  | c :: cs =>
    if isPreL kw ((c :: cs).map Char.toLower) then
      match tailP ((c :: cs).drop kw.length) with
      | some r => some r
      | none => searchOcc kw tailP cs
    else searchOcc kw tailP cs

/-- Matcher for `routeRe`. -/
def matchRoute (line : String) : Option (String × String × String) :=
  searchOcc "@route".data routeTail line.data

/-- Matcher for `restRe`. -/
def matchRest (line : String) : Option (String × String × String) :=
  searchOcc "@rest".data routeTail line.data

/-- Matcher for `graphqlRe`. -/
def matchGraphql (line : String) : Option (String × String × String) :=
  searchOcc "@graphql".data graphqlTail line.data

/-- Matcher for `headerRe`. -/
def matchHeader (line : String) : Option (String × String) :=
  searchOcc "@header".data headerTail line.data

/-- Matcher for `bodyRe`. -/
def matchBody (line : String) : Option String :=
  searchOcc "@body".data textTail line.data

/-- Matcher for `tagRe`. -/
def matchTag (line : String) : Option String :=
  searchOcc "@tag".data tagTail line.data

/-- Matcher for `schemaRe`. -/
def matchSchema (line : String) : Option String :=
  searchOcc "@schema".data textTail line.data

/-- Matcher for `queryRe`. -/
def matchQuery (line : String) : Option String :=
  searchOcc "@query".data textTail line.data

/-- Matcher for `variablesRe`. -/
def matchVariables (line : String) : Option String :=
  searchOcc "@variables".data textTail line.data

example : matchRoute "@route POST /api/users Create user" =
    some ("POST", "/api/users", "Create user") := by decide
example : matchRoute "@route GET /x" = some ("GET", "/x", "") := by decide
example : matchHeader "@header Content-Type: application/json" =
    some ("Content-Type", "application/json") := by decide
example : matchTag "@tag users" = some "users" := by decide
example : matchTag "@tag users extra" = none := by decide
example : matchBody "@body \x7b\"a\":1\x7d" = some "\x7b\"a\":1\x7d" := by decide
example : matchGraphql "@graphql mutation /gql Do it" =
    some ("mutation", "/gql", "Do it") := by decide
example : matchRest "@rest put /y desc" = some ("put", "/y", "desc") := by decide

/-! ## Annotation parser (`scanAnnotationsFromFile`) -/

/-- One route declaration collected in the group-level route pass. -/
structure RouteDecl where
  method : String
  path : String
  desc : String
  routeType : String
  operation : String
deriving DecidableEq, Repr

/-- Coerce a `@route`/`@rest` method capture: upper-case, unknown verbs
become `ANY`. -/
def coerceMethod (m : String) : String :=
  if memStr (upStr m) verbList then upStr m else "ANY"

/-- Route declarations found on one collected line; the graphql, rest and
route patterns are tested independently, in source order. -/
def routesOfLine (line : String) : List RouteDecl :=
  (match matchGraphql line with
   | some (op, p, d) => [⟨"POST", p, d, "GraphQL", op⟩]
   | none => []) ++
  (match matchRest line with
   | some (m, p, d) => [⟨coerceMethod m, p, d, "REST", ""⟩]
   | none => []) ++
  (match matchRoute line with
   | some (m, p, d) => [⟨coerceMethod m, p, d, "REST", ""⟩]
   | none => [])

/-- Accumulated directive state of one comment group. -/
structure AccState where
  headers : List (String × String)
  body : String
  tags : List String
  gql : Option GraphQLInfo
deriving DecidableEq, Repr

/-- Go map write on the header association list. -/
def upsertHeader (hs : List (String × String)) (k v : String) : List (String × String) :=
  match hs with
  | [] => [(k, v)]
  | (k2, v2) :: rest => if k2 = k then (k, v) :: rest else (k2, v2) :: upsertHeader rest k v

/-- One step of the accumulation loop: the first matching directive of the
`continue`-chain (header, body, tag, schema, query, variables) wins for a
line. -/
def accStep (st : AccState) (line : String) : AccState :=
  match matchHeader line with
  | some (k, v) =>
    if k ≠ "" then { st with headers := upsertHeader st.headers k v } else st
  | none =>
  match matchBody line with
  | some b => { st with body := b }
  | none =>
  match matchTag line with
  | some t =>
    if t ≠ "" ∧ memStr t st.tags = false then { st with tags := st.tags ++ [t] } else st
  | none =>
  match matchSchema line with
  | some sc => { st with gql := some { st.gql.getD {} with schema := sc } }
  | none =>
  match matchQuery line with
  | some q => { st with gql := some { st.gql.getD {} with query := q } }
  | none =>
  match matchVariables line with
  | some v => { st with gql := some { st.gql.getD {} with varsText := v } }
  | none => st

/-- A line matches some directive pattern (the first collection pass of
the group). -/
def isAnnotLine (line : String) : Bool :=
  (matchHeader line).isSome || (matchBody line).isSome || (matchTag line).isSome ||
  (matchSchema line).isSome || (matchQuery line).isSome || (matchVariables line).isSome ||
  (matchGraphql line).isSome || (matchRest line).isSome || (matchRoute line).isSome

/-- Collected directive lines of a group: trimmed, non-empty, matching
some pattern, in original order. -/
def annotLinesOf (rawLines : List String) : List String :=
  (rawLines.map goTrim).filter (fun l => l ≠ "" && isAnnotLine l)

/-- Endpoint emission for the collected routes.  The accumulated
`GraphQLInfo` is a shared mutable pointer in the source: once an operation
is set by a graphql route it persists for later routes; the threaded
`gql` state models this. -/
def emitRoutes (src : String) (acc : AccState) :
    List RouteDecl → Option GraphQLInfo → List Endpoint
  | [], _ => []
  | r :: rs, gql =>
    if r.routeType = "GraphQL" then
      let g0 := gql.getD {}
      let g1 := if g0.operation = "" then { g0 with operation := r.operation } else g0
      { method := r.method, path := r.path, sourceFile := src, handler := "",
        desc := r.desc, headers := acc.headers, bodyRaw := acc.body, tags := acc.tags,
        type_ := "GraphQL", graphql := some g1 } :: emitRoutes src acc rs (some g1)
    else
      { method := r.method, path := r.path, sourceFile := src, handler := "",
        desc := r.desc, headers := acc.headers, bodyRaw := acc.body, tags := acc.tags,
        type_ := "REST", graphql := none } :: emitRoutes src acc rs gql

/-- Accumulated directive state of a comment group's collected lines. -/
def accOf (rawLines : List String) : AccState :=
  (annotLinesOf rawLines).foldl accStep ⟨[], "", [], none⟩

/-- Processing of one comment group: collect directive lines, extract
route declarations, accumulate the remaining directives, then emit one
endpoint per route with the shared accumulated state. -/
def groupEndpoints (src : String) (rawLines : List String) : List Endpoint :=
  emitRoutes src (accOf rawLines)
    (((annotLinesOf rawLines).map routesOfLine).flatten) (accOf rawLines).gql

/-- Port of `scanAnnotationsFromFile` over all comment groups of a file. -/
def scanAnnotationsFromFile (file : GoFile) : List Endpoint :=
  (file.comments.map (groupEndpoints file.path)).flatten

/-! ## Path validity filter (`isValidEndpointPath`) -/

/-- The blacklist of header names misparsed as paths. -/
def invalidPathList : List String :=
  ["/X-Request-ID", "/Content-Type", "/Authorization", "/Accept", "/User-Agent"]

/-- Case-insensitive membership test over the blacklist. -/
def anyEqFold (p : String) : List String → Bool
  | [] => false
  | x :: xs => eqFold p x || anyEqFold p xs

/-- Port of `isValidEndpointPath`. -/
def isValidEndpointPath (path : String) : Bool :=
  if path = "" then false
  else if hasPre path "/" = false then false
  else if anyEqFold path invalidPathList then false
  else if 0 < countChar path '-' ∧ countChar path '/' = 1 ∧
          containsStr (trimPreStr path "/") "-" = true ∧
          titleStr (trimPreStr path "/") = trimPreStr path "/" then false
  else if (trimPreStr path "/").data.length < 2 then false
  else true

example : isValidEndpointPath "/v1/users" = true := by decide
example : isValidEndpointPath "/X-Request-ID" = false := by decide
example : isValidEndpointPath "/My-Header" = false := by decide
example : isValidEndpointPath "/my-path" = true := by decide
example : isValidEndpointPath "/a" = false := by decide
example : isValidEndpointPath "no-slash" = false := by decide

/-! ## Route call recognizer and `ScanDir` -/

/-- Loop body of `stringArgs`: the contribution of one argument (a string
literal that trims and upper-cases to a member of the verb set). -/
def stringArgOf : Expr → List String
  | .eStr s => if memStr (upStr (goTrim s)) verbList then [upStr (goTrim s)] else []
  | _ => []

/-- Port of `stringArgs`. -/
def stringArgs : ExprList → List String
  | .enil => []
  | .econs a rest => stringArgOf a ++ stringArgs rest

/-- Port of `isVerb`. -/
def isVerb (s : String) : Bool := memStr (upStr s) verbList

/-- Decomposition of the `*ast.CallExpr` / `*ast.SelectorExpr` type
assertions the inspector performs: receiver, selector name and arguments
of a call through a selector. -/
def callParts : Expr → Option (Expr × String × ExprList)
  | .eCall (.eSel x sel) args => some (x, sel, args)
  | _ => none

/-- Decomposition of the string-literal path assertion
(`*ast.BasicLit` of kind `STRING` plus `strconv.Unquote`) on argument
`i`. -/
def strLitArg (args : ExprList) (i : Nat) : Option String :=
  match args.get? i with
  | some (.eStr s) => some s
  | _ => none

/-- Port of `guessHandlerName`: bare identifier or trailing selector name
of the second call argument. -/
def guessHandlerName (c : Expr) : String :=
  match c with
  | .eCall _ args =>
    if 2 ≤ args.len then
      match args.get? 1 with
      | some (.eIdent n) => n
      | some (.eSel _ s) => s
      | _ => ""
    else ""
  | _ => ""

/-- Port of `findChainedMethods`: a `Methods` call itself, or a call whose
receiver is a `Methods` call.  The parent of a node is not reachable, so a
`Methods` call chained onto the given call is never found here. -/
def findChainedMethods (e : Expr) : List String :=
  match callParts e with
  | some (x, sel, args) =>
    if sel = "Methods" then stringArgs args
    else
      match callParts x with
      | some (_, sel2, args2) => if sel2 = "Methods" then stringArgs args2 else []
      | none => []
  | none => []

/-- Body attachment: the handler's detected body when the handler name is
known and present in the global body map. -/
def bodyFor (bodies : List (String × String)) (h : String) : String :=
  if h ≠ "" ∧ (alookup bodies h).getD "" ≠ "" then (alookup bodies h).getD "" else ""

/-- The `Methods`-chain special case of the call inspector: a `Methods`
call whose receiver is a `HandleFunc`/`Handle` call with a valid string
path literal emits one endpoint per recognized verb argument. -/
def methodsChainEmits (src : String) (c : Expr) : List Endpoint :=
  match callParts c with
  | some (x, sel, args) =>
    if sel = "Methods" ∧ 1 ≤ args.len then
      match callParts x with
      | some (_, isel, iargs) =>
        if (isel = "HandleFunc" ∨ isel = "Handle") ∧ 1 ≤ iargs.len then
          match strLitArg iargs 0 with
          | some p =>
            if isValidEndpointPath p then
              (stringArgs args).map (fun m =>
                { method := m, path := p, sourceFile := src,
                  handler := guessHandlerName x, headers := [], type_ := "REST" })
            else []
          | none => []
        else []
      | none => []
    else []
  | none => []

/-- The chi-like verb branch: `X.<Verb>(path, handler)` with a valid
string path literal emits one endpoint for that verb, with the handler's
detected body attached. -/
def verbEmits (src : String) (bodies : List (String × String)) (c : Expr) : List Endpoint :=
  match callParts c with
  | some (_, sel, args) =>
    if isVerb sel ∧ 1 ≤ args.len then
      match strLitArg args 0 with
      | some p =>
        if isValidEndpointPath p then
          [{ method := upStr sel, path := p, sourceFile := src,
             handler := guessHandlerName c, headers := [],
             bodyRaw := bodyFor bodies (guessHandlerName c), type_ := "REST" }]
        else []
      | none => []
    else []
  | none => []

/-- GraphQL-looking path test of the `POST` branch. -/
def isGraphQLishPath (p : String) : Bool :=
  containsStr (lowStr p) "graphql" || containsStr (lowStr p) "graph" ||
  hasSuf (lowStr p) "/query"

/-- The `POST` branch: GraphQL-typed endpoint for GraphQL-looking paths,
plain REST POST endpoint (with body attachment) otherwise. -/
def postEmits (src : String) (bodies : List (String × String)) (c : Expr) : List Endpoint :=
  match callParts c with
  | some (_, sel, args) =>
    if sel = "POST" ∧ 1 ≤ args.len then
      match strLitArg args 0 with
      | some p =>
        if isValidEndpointPath p then
          if isGraphQLishPath p then
            [{ method := "POST", path := p, sourceFile := src,
               handler := guessHandlerName c, headers := [], type_ := "GraphQL",
               graphql := some { operation := "query" } }]
          else
            [{ method := "POST", path := p, sourceFile := src,
               handler := guessHandlerName c, headers := [],
               bodyRaw := bodyFor bodies (guessHandlerName c), type_ := "REST" }]
        else []
      | none => []
    else []
  | none => []

/-- The `HandleFunc`/`Handle` branches (identical in the source up to the
selector name): with no chained methods found, one ANY endpoint with the
body attached; otherwise one endpoint per verb, the body attached only for
POST/PUT/PATCH. -/
def handleChainEmits (want : String) (src : String) (bodies : List (String × String))
    (c : Expr) : List Endpoint :=
  match callParts c with
  | some (_, sel, args) =>
    if sel = want ∧ 1 ≤ args.len then
      match strLitArg args 0 with
      | some p =>
        if isValidEndpointPath p then
          let handler := guessHandlerName c
          let body := bodyFor bodies handler
          match findChainedMethods c with
          | [] => [{ method := "ANY", path := p, sourceFile := src, handler := handler,
                     headers := [], bodyRaw := body, type_ := "REST" }]
          | m :: ms => (m :: ms).map (fun m2 =>
              { method := m2, path := p, sourceFile := src, handler := handler,
                headers := [],
                bodyRaw := if (m2 = "POST" ∨ m2 = "PUT" ∨ m2 = "PATCH") ∧ body ≠ ""
                           then body else "",
                type_ := "REST" })
        else []
      | none => []
    else []
  | none => []

/-- All endpoints emitted when the inspector visits one call expression:
the five sequential (non-exclusive) branches of the `SelectorExpr` case,
in source order. -/
def emitsForCall (src : String) (bodies : List (String × String)) (c : Expr) : List Endpoint :=
  match callParts c with
  | some _ =>
    methodsChainEmits src c ++ verbEmits src bodies c ++ postEmits src bodies c ++
    handleChainEmits "HandleFunc" src bodies c ++ handleChainEmits "Handle" src bodies c
  | none => []

mutual
/-- Pre-order enumeration of the call expressions in an expression, in
`ast.Inspect` visit order (node before children; function before
arguments). -/
def callsInExpr : Expr → List Expr
  | .eCall f args => .eCall f args :: (callsInExpr f ++ callsInExprs args)
  | .eSel x _ => callsInExpr x
  | .eUnary x => callsInExpr x
  | .eComp _ elts => callsInExprs elts
  | _ => []

/-- Pre-order call enumeration over an expression list. -/
def callsInExprs : ExprList → List Expr
  | .enil => []
  | .econs e es => callsInExpr e ++ callsInExprs es
end

/-- Pre-order call enumeration over `var` specifications. -/
def callsInSpecs : List VSpec → List Expr
  | [] => []
  | vs :: rest => callsInExprs vs.vals ++ callsInSpecs rest

mutual
/-- Pre-order call enumeration over a statement. -/
def callsInStmt : Stmt → List Expr
  | .sExpr e => callsInExpr e
  | .sAssign lhs rhs => callsInExprs lhs ++ callsInExprs rhs
  | .sVar specs => callsInSpecs specs
  | .sRet es => callsInExprs es
  | .sBlock ss => callsInStmts ss
  | .sIf c t e => callsInExpr c ++ callsInStmts t ++ callsInStmts e

/-- Pre-order call enumeration over a statement list. -/
def callsInStmts : StmtList → List Expr
  | .snil => []
  | .scons s ss => callsInStmt s ++ callsInStmts ss
end

/-- Pre-order call enumeration over a file's function bodies. -/
def callsInFile (f : GoFile) : List Expr :=
  (f.funcs.map (fun fn =>
    match fn.body with
    | some ss => callsInStmts ss
    | none => [])).flatten

/-- Go map write on a string-keyed body map. -/
def mapInsert (m : List (String × String)) (k v : String) : List (String × String) :=
  match m with
  | [] => [(k, v)]
  | (k2, v2) :: rest => if k2 = k then (k, v) :: rest else (k2, v2) :: mapInsert rest k v

/-- Port of `scanFunctionsForBodies`: detected non-empty bodies of a
file's functions, keyed by function name. -/
def scanFunctionsForBodies (a? : Option ProjectAnalysis) (f : GoFile) :
    List (String × String) :=
  f.funcs.foldl (fun m fn =>
    let b := DetectBodyFromFunction a? fn
    if b ≠ "" then mapInsert m fn.name b else m) []

/-- First `ScanDir` pass: the global function-body map over all files. -/
def collectBodies (a? : Option ProjectAnalysis) (files : List GoFile) :
    List (String × String) :=
  files.foldl (fun m f =>
    (scanFunctionsForBodies a? f).foldl (fun m2 kv => mapInsert m2 kv.1 kv.2) m) []

/-- State of the deduplicating `add` closure: the `seen` key set and the
accumulated endpoint list. -/
structure ScanState where
  seen : List String
  out : List Endpoint
deriving DecidableEq, Repr

/-- Normalization performed by `add` before the key check: empty method
becomes ANY, the path gains a leading slash, empty type becomes REST. -/
def normE (e : Endpoint) : Endpoint :=
  let e1 := if e.method = "" then { e with method := "ANY" } else e
  let e2 := if hasPre e1.path "/" then e1 else { e1 with path := sApp "/" e1.path }
  if e2.type_ = "" then { e2 with type_ := "REST" } else e2

/-- Deduplication key: upper-cased method, path, source file and
comma-joined tags. -/
def keyE (e : Endpoint) : String :=
  sApp (upStr e.method) (sApp " " (sApp e.path (sApp " "
    (sApp e.sourceFile (sApp " " (joinComma e.tags))))))

/-- Final form of an endpoint as `add` appends it: normalized, with the
method upper-cased. -/
def finalE (e : Endpoint) : Endpoint :=
  { normE e with method := upStr (normE e).method }

/-- Port of the `add` closure: normalize, drop on a seen key, otherwise
record the key and append the endpoint with the method upper-cased. -/
def addOne (st : ScanState) (e : Endpoint) : ScanState :=
  if memStr (keyE (normE e)) st.seen then st
  else ⟨keyE (normE e) :: st.seen, st.out ++ [finalE e]⟩

/-- Fold of `add` over a stream of discovered endpoints. -/
def addAll (st : ScanState) : List Endpoint → ScanState
  | [] => st
  | e :: es => addAll (addOne st e) es

/-- Discovered-endpoint stream of one file: annotation endpoints first,
then the per-call emissions in pre-order. -/
def fileStream (bodies : List (String × String)) (f : GoFile) : List Endpoint :=
  scanAnnotationsFromFile f ++ ((callsInFile f).map (emitsForCall f.path bodies)).flatten

/-- Discovered-endpoint stream of the whole tree (second `ScanDir` pass),
using the body map of the first pass. -/
def scanStream (a? : Option ProjectAnalysis) (files : List GoFile) : List Endpoint :=
  let bodies := collectBodies a? files
  (files.map (fileStream bodies)).flatten

/-- Port of `ScanDir` over parsed files, with the project analysis the
source computes (and stores in the process global) passed explicitly. -/
def ScanDir (a? : Option ProjectAnalysis) (files : List GoFile) : List Endpoint :=
  (addAll ⟨[], []⟩ (scanStream a? files)).out

/-! ## Architecture pattern detector (`project_analyzer.go`)

Scores are `float64` in the source; every score is built from the exact
decimal constants 0.2, 0.3 and 1.0 and from small integer quotients, so
rationals model them faithfully for the claims settled here. -/

/-- The clean-architecture keyword list. -/
def cleanPatterns : List String :=
  ["domain", "entity", "entities", "usecase", "usecases", "application",
   "repository", "repositories", "infrastructure", "handler", "handlers",
   "delivery", "transport", "service", "services"]

/-- Inner package loop with `break`: some package name contains the
keyword (case-insensitively). -/
def anyPkgContains (packages : List String) (pat : String) : Bool :=
  packages.any (fun pkg => containsStr (lowStr pkg) pat)

/-- Port of `detectCleanArchitecture`. -/
def detectCleanArchitecture (packages : List String) : ℚ :=
  let st := cleanPatterns.foldl (fun (st : ℚ × ℚ) pat =>
    (if anyPkgContains packages pat then st.1 + 1 else st.1, st.2 + 1)) (0, 0)
  if st.2 = 0 then 0 else st.1 / st.2

/-- The MVC keyword list. -/
def mvcPatterns : List String := ["model", "view", "controller"]

/-- Port of `detectMVC`. -/
def detectMVC (packages : List String) : ℚ :=
  let score := mvcPatterns.foldl (fun (sc : ℚ) pat =>
    if anyPkgContains packages pat then sc + 1 else sc) 0
  score / 3

/-- The layered-architecture keyword list. -/
def layerPatterns : List String :=
  ["api", "web", "http", "business", "logic", "service", "data", "dal",
   "persistence", "common", "shared", "utils"]

/-- Port of `detectLayeredArchitecture`. -/
def detectLayeredArchitecture (packages : List String) : ℚ :=
  let st := layerPatterns.foldl (fun (st : ℚ × ℚ) pat =>
    (if anyPkgContains packages pat then st.1 + 1 else st.1, st.2 + 1)) (0, 0)
  if st.2 = 0 then 0 else st.1 / st.2

/-- Port of `detectMicroservicePattern`: 0.3 per grpc/protobuf import,
0.2 for a main package, 0.2 per config/env package, capped at 1. -/
def detectMicroservicePattern (pa : ProjectAnalysis) : ℚ :=
  let s0 : ℚ := pa.packages.foldl (fun s kv =>
    kv.2.imports.foldl (fun s2 imp =>
      if containsStr imp "grpc" || containsStr imp "protobuf" then s2 + 3/10 else s2) s) 0
  let s1 := if (alookup pa.packages "main").isSome then s0 + 2/10 else s0
  let s2 := pa.packages.foldl (fun s kv =>
    if containsStr (lowStr kv.1) "config" || containsStr (lowStr kv.1) "env"
    then s + 2/10 else s) s1
  if 1 < s2 then 1 else s2

/-- Port of `detectDTOPatterns`: struct entries whose lower-cased
package-qualified key ends in a DTO suffix contribute their bare struct
name. -/
def detectDTOPatterns (pa : ProjectAnalysis) : List String :=
  pa.structs.filterMap (fun kv =>
    let lowerName := lowStr kv.1
    if hasSuf lowerName "request" || hasSuf lowerName "req" ||
       hasSuf lowerName "dto" || hasSuf lowerName "model" ||
       hasSuf lowerName "entity" || hasSuf lowerName "response" ||
       hasSuf lowerName "resp"
    then some kv.2.name else none)

/-- The non-main package names probed by the keyword detectors. -/
def pkgNamesOf (pa : ProjectAnalysis) : List String :=
  (pa.packages.map Prod.fst).filter (fun n => n ≠ "main")

/-- Port of `detectArchitecturePattern`.  The source initializes the
result to type "unknown" with confidence 0 and then unconditionally
overwrites it with the clean score before the comparisons, so "unknown"
is never returned. -/
def detectArchitecturePattern (pa : ProjectAnalysis) : ArchitecturePattern :=
  let packageNames := pkgNamesOf pa
  let cleanScore := detectCleanArchitecture packageNames
  let mvcScore := detectMVC packageNames
  let layeredScore := detectLayeredArchitecture packageNames
  let microserviceScore := detectMicroservicePattern pa
  let sel1 : String × ℚ × ℚ := ("clean", cleanScore, cleanScore)
  let sel2 := if mvcScore > sel1.2.2 then ("mvc", mvcScore, mvcScore) else sel1
  let sel3 := if layeredScore > sel2.2.2 then ("layered", layeredScore, layeredScore) else sel2
  let sel4 := if microserviceScore > sel3.2.2
              then ("microservice", microserviceScore) else (sel3.1, sel3.2.1)
  { type_ := sel4.1, layers := packageNames,
    dtoPatterns := detectDTOPatterns pa, confidence := sel4.2 }

/-- The empty project analysis (no structs, no packages). -/
def emptyAnalysis : ProjectAnalysis :=
  { structs := [], packages := [], archPattern := ⟨"", [], [], 0⟩ }

/-! ## Lemmas about the deduplicating accumulator -/

/-- Boolean membership agrees with list membership. -/
theorem memStr_iff_mem (s : String) (l : List String) : memStr s l = true ↔ s ∈ l := by
  induction l with
  | nil => simp [memStr]
  | cons t ts ih => simp [memStr, ih, beq_iff_eq]

/-- Adding an endpoint never removes a key from the seen set. -/
theorem memStr_seen_addOne (st : ScanState) (e : Endpoint) (k : String)
    (h : memStr k st.seen = true) : memStr k (addOne st e).seen = true := by
  unfold addOne
  split
  · exact h
  · simp [memStr, h]

/-- Folding the accumulator never removes a key from the seen set. -/
theorem memStr_seen_addAll (es : List Endpoint) (st : ScanState) (k : String)
    (h : memStr k st.seen = true) : memStr k (addAll st es).seen = true := by
  induction es generalizing st with
  | nil => exact h
  | cons e es ih => exact ih _ (memStr_seen_addOne st e k h)

/-- After folding a stream, the key of every stream element is seen. -/
theorem key_seen_addAll (es : List Endpoint) (st : ScanState) (e : Endpoint)
    (h : e ∈ es) : memStr (keyE (normE e)) (addAll st es).seen = true := by
  induction es generalizing st with
  | nil => cases h
  | cons x xs ih =>
    simp only [addAll]
    rcases List.mem_cons.mp h with rfl | hx
    · apply memStr_seen_addAll
      unfold addOne
      split
      · assumption
      · simp [memStr]
    · exact ih _ hx

/-- Folding a stream whose keys are all already seen changes nothing. -/
theorem addAll_noop (es : List Endpoint) (st : ScanState)
    (h : ∀ e ∈ es, memStr (keyE (normE e)) st.seen = true) : addAll st es = st := by
  induction es generalizing st with
  | nil => rfl
  | cons x xs ih =>
    simp only [addAll]
    have hx : addOne st x = st := by
      unfold addOne
      rw [h x (List.mem_cons_self x xs)]
      simp
    rw [hx]
    exact ih st (fun e he => h e (List.mem_cons_of_mem x he))

/-- Re-feeding an already folded stream to the accumulator is a no-op. -/
theorem addAll_idem (es : List Endpoint) (st : ScanState) :
    addAll (addAll st es) es = addAll st es :=
  addAll_noop es (addAll st es) (fun e he => key_seen_addAll es st e he)

/-! ## Lemmas for the endpoint invariant (C2) -/

/-- Method invariant offered to `add` by every discovery site. -/
def methodOK (m : String) : Prop := m = "ANY" ∨ m ∈ verbList

/-- The invariant claimed for every endpoint `ScanDir` returns: a path
with a leading slash and a method that is ANY or a fixed verb. -/
def endpointOK (e : Endpoint) : Prop :=
  hasPre e.path "/" = true ∧ (e.method = "ANY" ∨ e.method ∈ verbList)

/-- One argument's `stringArgs` contribution lies in the verb set. -/
theorem stringArgOf_sub (a : Expr) (m : String) (h : m ∈ stringArgOf a) :
    m ∈ verbList := by
  cases a <;> simp only [stringArgOf] at h <;> try cases h
  case eStr s =>
    split at h
    · next hc =>
      rw [List.mem_singleton] at h
      subst h
      exact (memStr_iff_mem _ _).mp hc
    · cases h

/-- Every recognized `Methods` argument lies in the verb set. -/
theorem stringArgs_sub : ∀ (args : ExprList) (m : String), m ∈ stringArgs args → m ∈ verbList
  | .enil, _, h => by cases h
  | .econs a rest, m, h => by
    simp only [stringArgs] at h
    rcases List.mem_append.mp h with h1 | h2
    · exact stringArgOf_sub a m h1
    · exact stringArgs_sub rest m h2

/-- Chained methods lie in the verb set. -/
theorem findChainedMethods_sub (c : Expr) (m : String)
    (h : m ∈ findChainedMethods c) : m ∈ verbList := by
  unfold findChainedMethods at h
  split at h
  · split at h
    · exact stringArgs_sub _ _ h
    · split at h
      · split at h
        · exact stringArgs_sub _ _ h
        · cases h
      · cases h
  · cases h

/-- A coerced annotation method satisfies the invariant. -/
theorem coerceMethod_ok (m : String) : methodOK (coerceMethod m) := by
  unfold coerceMethod methodOK
  split
  · next hc => exact Or.inr ((memStr_iff_mem _ _).mp hc)
  · exact Or.inl rfl

/-- Every route declaration of a line carries an invariant method. -/
theorem routesOfLine_method_ok (line : String) (r : RouteDecl)
    (h : r ∈ routesOfLine line) : methodOK r.method := by
  unfold routesOfLine at h
  simp only [List.mem_append, or_assoc] at h
  rcases h with h | h | h
  · rcases hg : matchGraphql line with _ | ⟨op, p, d⟩ <;> rw [hg] at h
    · cases h
    · rw [List.mem_singleton] at h
      subst h
      exact Or.inr (by simp [verbList])
  · rcases hr : matchRest line with _ | ⟨m, p, d⟩ <;> rw [hr] at h
    · cases h
    · rw [List.mem_singleton] at h
      subst h
      exact coerceMethod_ok m
  · rcases hr : matchRoute line with _ | ⟨m, p, d⟩ <;> rw [hr] at h
    · cases h
    · rw [List.mem_singleton] at h
      subst h
      exact coerceMethod_ok m

/-- Every endpoint a comment group emits takes its method, path and
description from one of the group's route declarations and copies the
accumulated headers, body and tags. -/
theorem emitRoutes_fields (src : String) (acc : AccState) :
    ∀ (routes : List RouteDecl) (gql : Option GraphQLInfo) (e : Endpoint),
      e ∈ emitRoutes src acc routes gql →
      ∃ r ∈ routes, e.method = r.method ∧ e.path = r.path ∧ e.desc = r.desc ∧
        e.headers = acc.headers ∧ e.bodyRaw = acc.body ∧ e.tags = acc.tags
  | [], _, e, h => by cases h
  | r :: rs, gql, e, h => by
    simp only [emitRoutes] at h
    split at h
    · rcases List.mem_cons.mp h with rfl | hrest
      · exact ⟨r, List.mem_cons_self r rs, rfl, rfl, rfl, rfl, rfl, rfl⟩
      · obtain ⟨r2, hr2, hprops⟩ := emitRoutes_fields src acc rs _ e hrest
        exact ⟨r2, List.mem_cons_of_mem r hr2, hprops⟩
    · rcases List.mem_cons.mp h with rfl | hrest
      · exact ⟨r, List.mem_cons_self r rs, rfl, rfl, rfl, rfl, rfl, rfl⟩
      · obtain ⟨r2, hr2, hprops⟩ := emitRoutes_fields src acc rs _ e hrest
        exact ⟨r2, List.mem_cons_of_mem r hr2, hprops⟩

/-- Annotation-derived endpoints carry invariant methods. -/
theorem groupEndpoints_method_ok (src : String) (lines : List String) (e : Endpoint)
    (h : e ∈ groupEndpoints src lines) : methodOK e.method := by
  unfold groupEndpoints at h
  obtain ⟨r, hr, hm, -⟩ := emitRoutes_fields src _ _ _ e h
  rw [hm]
  simp only [List.mem_flatten, List.mem_map] at hr
  obtain ⟨l, ⟨line, _, rfl⟩, hrl⟩ := hr
  exact routesOfLine_method_ok line r hrl

/-- Endpoints of the `Methods`-chain branch carry verb methods. -/
theorem methodsChainEmits_method_ok (src : String) (c : Expr) (e : Endpoint)
    (h : e ∈ methodsChainEmits src c) : methodOK e.method := by
  unfold methodsChainEmits at h
  split at h
  · split at h
    · split at h
      · split at h
        · split at h
          · split at h
            · obtain ⟨m, hm, rfl⟩ := List.mem_map.mp h
              exact Or.inr (stringArgs_sub _ _ hm)
            · cases h
          · cases h
        · cases h
      · cases h
    · cases h
  · cases h

/-- Endpoints of the verb branch carry verb methods. -/
theorem verbEmits_method_ok (src : String) (bodies : List (String × String))
    (c : Expr) (e : Endpoint) (h : e ∈ verbEmits src bodies c) : methodOK e.method := by
  unfold verbEmits at h
  split at h
  · split at h
    · next hcond =>
      split at h
      · split at h
        · rw [List.mem_singleton] at h
          subst h
          exact Or.inr ((memStr_iff_mem _ _).mp hcond.1)
        · cases h
      · cases h
    · cases h
  · cases h

/-- Endpoints of the POST branch carry the POST method. -/
theorem postEmits_method_ok (src : String) (bodies : List (String × String))
    (c : Expr) (e : Endpoint) (h : e ∈ postEmits src bodies c) : methodOK e.method := by
  unfold postEmits at h
  split at h
  · split at h
    · split at h
      · split at h
        · split at h
          · rw [List.mem_singleton] at h
            subst h
            exact Or.inr (by simp [verbList])
          · rw [List.mem_singleton] at h
            subst h
            exact Or.inr (by simp [verbList])
        · cases h
      · cases h
    · cases h
  · cases h

/-- Endpoints of the `HandleFunc`/`Handle` branches carry ANY or a chained
verb. -/
theorem handleChainEmits_method_ok (want src : String) (bodies : List (String × String))
    (c : Expr) (e : Endpoint) (h : e ∈ handleChainEmits want src bodies c) :
    methodOK e.method := by
  unfold handleChainEmits at h
  split at h
  · split at h
    · split at h
      · split at h
        · split at h
          · rw [List.mem_singleton] at h
            subst h
            exact Or.inl rfl
          · next hms =>
            obtain ⟨m2, hm2, rfl⟩ := List.mem_map.mp h
            exact Or.inr (findChainedMethods_sub c m2 (hms ▸ hm2))
        · cases h
      · cases h
    · cases h
  · cases h

/-- Every endpoint a call emission produces carries an invariant method. -/
theorem emitsForCall_method_ok (src : String) (bodies : List (String × String))
    (c : Expr) (e : Endpoint) (h : e ∈ emitsForCall src bodies c) :
    methodOK e.method := by
  unfold emitsForCall at h
  split at h
  · simp only [List.mem_append, or_assoc] at h
    rcases h with h | h | h | h | h
    · exact methodsChainEmits_method_ok src c e h
    · exact verbEmits_method_ok src bodies c e h
    · exact postEmits_method_ok src bodies c e h
    · exact handleChainEmits_method_ok "HandleFunc" src bodies c e h
    · exact handleChainEmits_method_ok "Handle" src bodies c e h
  · cases h

/-- Every endpoint of the discovered stream carries an invariant method. -/
theorem scanStream_method_ok (a? : Option ProjectAnalysis) (files : List GoFile)
    (e : Endpoint) (h : e ∈ scanStream a? files) : methodOK e.method := by
  unfold scanStream at h
  simp only [List.mem_flatten, List.mem_map] at h
  obtain ⟨l, ⟨f, -, rfl⟩, hel⟩ := h
  unfold fileStream at hel
  rcases List.mem_append.mp hel with h1 | h2
  · unfold scanAnnotationsFromFile at h1
    simp only [List.mem_flatten, List.mem_map] at h1
    obtain ⟨l2, ⟨g, -, rfl⟩, hel2⟩ := h1
    exact groupEndpoints_method_ok f.path g e hel2
  · simp only [List.mem_flatten, List.mem_map] at h2
    obtain ⟨l2, ⟨cc, -, rfl⟩, hel2⟩ := h2
    exact emitsForCall_method_ok f.path _ cc e hel2

/-- Prepending a slash yields a slash-led path. -/
theorem hasPre_slash_sApp (p : String) : hasPre (sApp "/" p) "/" = true := rfl

/-- The normalized path always has a leading slash. -/
theorem normE_path (e : Endpoint) : hasPre (normE e).path "/" = true := by
  simp only [normE]
  split <;> split <;> split <;> simp_all [hasPre_slash_sApp]

/-- The normalized method is the ANY-defaulted original method. -/
theorem normE_method (e : Endpoint) :
    (normE e).method = if e.method = "" then "ANY" else e.method := by
  simp only [normE]
  split <;> split <;> split <;> simp_all

/-- Upper-casing an ANY-defaulted invariant method keeps the invariant. -/
theorem upStr_method_ok (m : String) (hm : methodOK m) :
    methodOK (upStr (if m = "" then "ANY" else m)) := by
  rcases hm with h | h
  · subst h
    exact Or.inl rfl
  · fin_cases h <;> exact Or.inr (by decide)

/-- The appended endpoint satisfies the invariant whenever the offered
method does. -/
theorem finalE_ok (e : Endpoint) (hm : methodOK e.method) : endpointOK (finalE e) := by
  unfold endpointOK finalE
  constructor
  · simpa using normE_path e
  · have h2 := normE_method e
    simp only []
    rw [h2]
    exact upStr_method_ok e.method hm

/-- Elements of the accumulator output are old elements or the finalized
offered endpoint. -/
theorem addOne_out (st : ScanState) (e x : Endpoint) (h : x ∈ (addOne st e).out) :
    x ∈ st.out ∨ x = finalE e := by
  unfold addOne at h
  split at h
  · exact Or.inl h
  · rcases List.mem_append.mp h with h1 | h2
    · exact Or.inl h1
    · exact Or.inr (List.mem_singleton.mp h2)

/-- Elements of a folded accumulator output are old elements or finalized
stream elements. -/
theorem addAll_out (es : List Endpoint) (st : ScanState) (x : Endpoint)
    (h : x ∈ (addAll st es).out) : x ∈ st.out ∨ ∃ e ∈ es, x = finalE e := by
  induction es generalizing st with
  | nil => exact Or.inl h
  | cons e es ih =>
    rcases ih (addOne st e) h with h1 | ⟨e2, he2, hx⟩
    · rcases addOne_out st e x h1 with h2 | h2
      · exact Or.inl h2
      · exact Or.inr ⟨e, List.mem_cons_self e es, h2⟩
    · exact Or.inr ⟨e2, List.mem_cons_of_mem e he2, hx⟩

/-! ## Claim C2 -/

/-- C2: every Endpoint in the list returned by `ScanDir` (whether
annotation-derived or call-derived) has a path that begins with "/" and a
method that is either "ANY" or an upper-case verb from the fixed verb
set. -/
theorem c2_scanDir_endpoint_invariant (a? : Option ProjectAnalysis)
    (files : List GoFile) (e : Endpoint) (h : e ∈ ScanDir a? files) :
    hasPre e.path "/" = true ∧ (e.method = "ANY" ∨ e.method ∈ verbList) := by
  unfold ScanDir at h
  rcases addAll_out _ _ _ h with h0 | ⟨e0, he0, rfl⟩
  · cases h0
  · exact finalE_ok e0 (scanStream_method_ok a? files e0 he0)

/-- Witness file for C2: one annotation route and one call route. -/
def w2File : GoFile :=
  { path := "w.go", comments := [["@route GET /ping"]],
    funcs := [⟨"main", some (.scons (.sExpr (.eCall (.eSel (.eIdent "r") "Post")
      (.econs (.eStr "/users") (.econs (.eIdent "h") .enil)))) .snil)⟩] }

/-- Witness endpoint for C2 (the annotation-derived endpoint of
`w2File`). -/
def w2Ep : Endpoint :=
  { method := "GET", path := "/ping", sourceFile := "w.go", type_ := "REST" }

/-- Witness for C2: the invariant holds at a concrete scanned endpoint. -/
theorem c2_scanDir_endpoint_invariant_witness :
    w2Ep ∈ ScanDir none [w2File]
    ∧ (hasPre w2Ep.path "/" = true ∧ (w2Ep.method = "ANY" ∨ w2Ep.method ∈ verbList)) :=
  ⟨by decide, c2_scanDir_endpoint_invariant none [w2File] w2Ep (by decide)⟩

/-! ## Claim C9 -/

/-- C9: `ScanDir` deduplication is idempotent over a fixed input tree:
re-feeding the full discovered stream to the deduplicating accumulator
reproduces exactly the `ScanDir` result (no growth on repeated
accumulation; two calls of the pure `ScanDir` are definitionally equal),
and an endpoint whose key is already seen is dropped, first-seen wins. -/
theorem c9_scanDir_dedup_idempotent :
    (∀ (a? : Option ProjectAnalysis) (files : List GoFile),
        (addAll (addAll ⟨[], []⟩ (scanStream a? files)) (scanStream a? files)).out
          = ScanDir a? files)
    ∧ ∀ (st : ScanState) (e : Endpoint),
        memStr (keyE (normE e)) st.seen = true → addOne st e = st := by
  constructor
  · intro a? files
    rw [addAll_idem]
    rfl
  · intro st e h
    unfold addOne
    rw [h]
    simp

/-- Witness state for C9: its seen set already holds the witness
endpoint's key. -/
def w9St : ScanState := ⟨["GET /x w.go "], []⟩

/-- Witness endpoint for C9. -/
def w9Ep : Endpoint :=
  { method := "GET", path := "/x", sourceFile := "w.go", type_ := "REST" }

/-- Witness for C9: a concrete duplicate-key insertion is dropped. -/
theorem c9_scanDir_dedup_idempotent_witness :
    memStr (keyE (normE w9Ep)) w9St.seen = true ∧ addOne w9St w9Ep = w9St :=
  ⟨by decide, c9_scanDir_dedup_idempotent.2 w9St w9Ep (by decide)⟩

/-! ## Claim C1 -/

/-- Two-element argument list. -/
def el2 (a b : Expr) : ExprList := .econs a (.econs b .enil)

/-- The chained registration
`x.HandleFunc("/v1/users", handler).Methods("GET", "POST")`. -/
def c1Chain : Expr :=
  .eCall (.eSel (.eCall (.eSel (.eIdent "x") "HandleFunc")
      (el2 (.eStr "/v1/users") (.eIdent "handler"))) "Methods")
      (el2 (.eStr "GET") (.eStr "POST"))

/-- A file whose main function contains exactly the C1 chain. -/
def c1File : GoFile :=
  { path := "main.go", comments := [],
    funcs := [⟨"main", some (.scons (.sExpr c1Chain) .snil)⟩] }

/-- The GET endpoint the chain's `Methods` special case emits. -/
def c1EpGet : Endpoint :=
  { method := "GET", path := "/v1/users", sourceFile := "main.go",
    handler := "handler", type_ := "REST" }

/-- The POST endpoint the chain's `Methods` special case emits. -/
def c1EpPost : Endpoint :=
  { method := "POST", path := "/v1/users", sourceFile := "main.go",
    handler := "handler", type_ := "REST" }

/-- The extra ANY endpoint emitted when the inner `HandleFunc` call is
visited on its own (`findChainedMethods` cannot reach the enclosing
`Methods` call through a parent pointer). -/
def c1EpAny : Endpoint :=
  { method := "ANY", path := "/v1/users", sourceFile := "main.go",
    handler := "handler", type_ := "REST" }

/-- Counterexample for C1: on a file containing exactly the chain
`x.HandleFunc("/v1/users", handler).Methods("GET","POST")`, `ScanDir`
emits three endpoints, not two - an ANY endpoint for the same path and
handler is also produced - so the claim fails as stated. -/
theorem c1_counterexample :
    ScanDir none [c1File] = [c1EpGet, c1EpPost, c1EpAny]
    ∧ (ScanDir none [c1File]).length ≠ 2
    ∧ c1EpAny ∈ ScanDir none [c1File] ∧ c1EpAny.method = "ANY" :=
  ⟨by decide, by decide, by decide, rfl⟩

/-- C1 (amended): for the chain
`X.HandleFunc(path, handler).Methods("GET","POST")` with a valid path
literal, `ScanDir` emits exactly three endpoints: GET and POST with the
same path and handler from the `Methods` special case, plus one ANY
endpoint with the same path and handler from the standalone visit of the
inner `HandleFunc` call, whatever the project analysis is. -/
theorem c1_amended (a? : Option ProjectAnalysis) :
    ScanDir a? [c1File] = [c1EpGet, c1EpPost, c1EpAny] := rfl

/-! ## Claim C10 -/

/-- A file with an annotation route and a call route both using the
blacklisted path `/X-Request-ID`. -/
def c10File : GoFile :=
  { path := "h.go", comments := [["@route GET /X-Request-ID"]],
    funcs := [⟨"main", some (.scons (.sExpr (.eCall (.eSel (.eIdent "r") "Get")
      (el2 (.eStr "/X-Request-ID") (.eIdent "h")))) .snil)⟩] }

/-- The annotation-derived endpoint `c10File` still yields. -/
def c10Ep : Endpoint :=
  { method := "GET", path := "/X-Request-ID", sourceFile := "h.go", type_ := "REST" }

/-- C10: the path validity filter applies only to call-derived path
literals: a comment group `@route GET /X-Request-ID` still produces its
endpoint, while the identical string as a route-call path literal
(`r.Get("/X-Request-ID", h)` in the same file) produces none -
`ScanDir` returns exactly the annotation endpoint, and the filter rejects
the path. -/
theorem c10_annotation_paths_unfiltered :
    ScanDir none [c10File] = [c10Ep] ∧ isValidEndpointPath "/X-Request-ID" = false :=
  ⟨by decide, by decide⟩

/-! ## Claim C3 -/

/-- The first matching call of the C3 function: `c.ShouldBindJSON(&user)`. -/
def c3CallUser : Expr :=
  .eCall (.eSel (.eIdent "c") "ShouldBindJSON") (.econs (.eUnary (.eIdent "user")) .enil)

/-- The second matching call of the C3 function: `c.ShouldBindJSON(&req)`. -/
def c3CallReq : Expr :=
  .eCall (.eSel (.eIdent "c") "ShouldBindJSON") (.econs (.eUnary (.eIdent "req")) .enil)

/-- A function body containing two recognized body idioms in sequence. -/
def c3Fn : FuncD :=
  ⟨"H", some (.scons (.sExpr c3CallUser) (.scons (.sExpr c3CallReq) .snil))⟩

/-- Counterexample for C3: with two matching calls in syntax order
(`&user` then `&req`) the detector returns the example synthesized from
the second (last) matching call, not from the first: the result is the
"req" shape, and differs from the "user" shape the first call would
synthesize. -/
theorem c3_counterexample :
    isBodyIdiom c3CallUser = true ∧ isBodyIdiom c3CallReq = true
    ∧ DetectJSONBody none c3Fn =
        ⟨true, "\x7b\"data\":\"string\",\"parameters\":\x7b\x7d\x7d", ""⟩
    ∧ generateSmartBodyExample none c3CallUser none =
        "\x7b\"name\":\"string\",\"email\":\"string\",\"id\":\"string\"\x7d"
    ∧ (DetectJSONBody none c3Fn).bodyExample ≠
        generateSmartBodyExample none c3CallUser none :=
  ⟨by decide, by decide, by decide, by decide, by decide⟩

/-- C3 (amended): the inspection does not stop at the first matching
call: a later sibling matching call overwrites the result, so for a body
consisting of two matching calls the returned example is the one
synthesized from the second call (children of a matched call are
skipped, but the walk continues with later statements). -/
theorem c3_amended (a? : Option ProjectAnalysis) (nm : String) (f1 f2 : Expr)
    (a1 a2 : ExprList)
    (h1 : isBodyIdiom (.eCall f1 a1) = true) (h2 : isBodyIdiom (.eCall f2 a2) = true) :
    DetectJSONBody a? ⟨nm, some (.scons (.sExpr (.eCall f1 a1))
        (.scons (.sExpr (.eCall f2 a2)) .snil))⟩
      = ⟨true, generateSmartBodyExample a? (.eCall f2 a2) none, ""⟩ := by
  simp [DetectJSONBody, scanStructUsage, suStmtsGo, suStmt, detStmts, detStmt,
        detExpr, h1, h2]

/-- Witness for C3's amended claim at the concrete two-call function. -/
theorem c3_amended_witness :
    isBodyIdiom c3CallUser = true ∧ isBodyIdiom c3CallReq = true
    ∧ DetectJSONBody none c3Fn =
        ⟨true, generateSmartBodyExample none c3CallReq none, ""⟩ :=
  ⟨by decide, by decide,
   c3_amended none "H" _ _ _ _ (by decide) (by decide)⟩

/-! ## Claim C4 -/

/-- The inline struct fields
`Name string `json:"name"`; Age int `json:"age"``. -/
def c4Fields : FieldList :=
  .fcons (.mk ["Name"] (.tIdent "string") (some "`json:\"name\"`"))
  (.fcons (.mk ["Age"] (.tIdent "int") (some "`json:\"age\"`")) .fnil)

/-- The decode call `json.NewDecoder(r.Body).Decode(&u)`. -/
def c4Call : Expr :=
  .eCall (.eSel (.eCall (.eSel (.eIdent "json") "NewDecoder")
      (.econs (.eSel (.eIdent "r") "Body") .enil)) "Decode")
    (.econs (.eUnary (.eIdent "u")) .enil)

/-- A function declaring the inline struct variable and decoding into
it. -/
def c4Fn : FuncD :=
  ⟨"H", some (.scons (.sVar [⟨["u"], some (.tStruct c4Fields), .enil⟩])
        (.scons (.sExpr c4Call) .snil))⟩

/-- C4: for a function declaring a local variable of the inline struct
type `{Name string `json:"name"`; Age int `json:"age"`}` and passing it
to a recognized JSON-decode idiom, when no project-wide struct fuzzily
matches the target variable's identifier (the project stage yields no
result), the synthesized body is exactly `{"name":"string","age":0}`,
fields in declaration order. -/
theorem c4_inline_struct_body (a? : Option ProjectAnalysis)
    (h : ∀ pa, a? = some pa → generateBodyFromProjectAnalysis c4Call pa = "") :
    DetectJSONBody a? c4Fn = ⟨true, "\x7b\"name\":\"string\",\"age\":0\x7d", ""⟩ := by
  cases a? with
  | none => decide
  | some pa =>
    have hpa := h pa rfl
    have hstep : DetectJSONBody (some pa) c4Fn
        = ⟨true, generateSmartBodyExample (some pa) c4Call
            (some (analyzeInlineStruct c4Fields "InlineStruct")), ""⟩ := rfl
    rw [hstep]
    simp only [generateSmartBodyExample, hpa]
    decide

/-- Witness for C4 at an absent project analysis (the project stage then
yields no result vacuously). -/
theorem c4_inline_struct_body_witness :
    (∀ pa, (none : Option ProjectAnalysis) = some pa →
        generateBodyFromProjectAnalysis c4Call pa = "")
    ∧ DetectJSONBody none c4Fn =
        ⟨true, "\x7b\"name\":\"string\",\"age\":0\x7d", ""⟩ :=
  ⟨(fun _ hpa => nomatch hpa), c4_inline_struct_body none (fun _ hpa => nomatch hpa)⟩

/-! ## Claim C5 -/

/-- The variable-name fallback shape table as the specification states it
(section 6): substring check on the lower-cased identifier, in the fixed
priority order user; create/post; update/put/patch; delete; request/req;
generic timestamped shape.  Stated from the spec's words for comparison
with `generateBodyByVariableName`. -/
def specVarNameShape (v : String) : String :=
  let lowered := lowStr v
  if containsStr lowered "user" then
    "\x7b\"name\":\"string\",\"email\":\"string\",\"id\":\"string\"\x7d"
  else if containsStr lowered "create" || containsStr lowered "post" then
    "\x7b\"name\":\"string\",\"value\":\"string\",\"type\":\"string\"\x7d"
  else if containsStr lowered "update" || containsStr lowered "put" ||
          containsStr lowered "patch" then
    "\x7b\"id\":\"string\",\"name\":\"string\",\"value\":\"string\"\x7d"
  else if containsStr lowered "delete" then
    "\x7b\"id\":\"string\",\"reason\":\"string\"\x7d"
  else if containsStr lowered "request" || containsStr lowered "req" then
    "\x7b\"data\":\"string\",\"parameters\":\x7b\x7d\x7d"
  else
    "\x7b\"id\":\"string\",\"name\":\"string\",\"value\":\"string\",\"timestamp\":\"2024-01-01T00:00:00Z\"\x7d"

/-- C5: for every target variable identifier, with no project analysis
and no local inline struct available, the synthesized body equals the
fixed variable-name table of the specification - both directly
(`generateBodyByVariableName`) and through `generateSmartBodyExample`
for a binding-idiom call `c.ShouldBindJSON(&v)` (first argument) and a
`json.Unmarshal(data, &v)` call (second argument). -/
theorem c5_variable_name_table (v : String) :
    generateBodyByVariableName v = specVarNameShape v
    ∧ generateSmartBodyExample none
        (.eCall (.eSel (.eIdent "c") "ShouldBindJSON")
          (.econs (.eUnary (.eIdent v)) .enil)) none = specVarNameShape v
    ∧ generateSmartBodyExample none
        (.eCall (.eSel (.eIdent "json") "Unmarshal")
          (el2 (.eIdent "data") (.eUnary (.eIdent v)))) none = specVarNameShape v :=
  ⟨rfl, rfl, rfl⟩

/-! ## Claim C6 -/

/-- A struct field `Secret string` tagged `json:"-"` (tag literal with
backticks as `ast.Field.Tag.Value` carries it). -/
def c6Field : FieldD := .mk ["Secret"] (.tIdent "string") (some "`json:\"-\"`")

/-- The project struct definition the analyzer builds for a struct with
the single field `c6Field`. -/
def c6Struct : StructDefinition :=
  { name := "SecretRequest", fields := analyzeStructField c6Field }

/-- C6 (code bug): the renderer `generateJSONFromProjectStruct` does skip
fields whose recorded key is the exclusion marker `-`, but
`extractJSONTag` maps the tag `json:"-"` to the empty string and
`analyzeStructField` then substitutes the lower-cased field name, so a
field tagged `json:"-"` is rendered under the key "secret" instead of
being omitted - the skip branch is unreachable from the analyzer. -/
theorem c6_exclusion_marker_not_omitted :
    extractJSONTag "json:\"-\"" = ""
    ∧ analyzeStructField c6Field = [⟨"Secret", "string", "secret", true⟩]
    ∧ generateJSONFromProjectStruct c6Struct = "\x7b\"secret\":\"string\"\x7d"
    ∧ containsStr (generateJSONFromProjectStruct c6Struct) "secret" = true
    ∧ generateJSONFromProjectStruct
        { name := "X", fields := [⟨"Secret", "string", "-", true⟩] } = "\x7b\x7d" :=
  ⟨by decide, by decide, by decide, by decide, by decide⟩

/-! ## Claim C7 -/

/-- Score facts for the empty project: all four pattern scores vanish. -/
theorem emptyAnalysis_scores_zero :
    detectCleanArchitecture (pkgNamesOf emptyAnalysis) = 0
    ∧ detectMVC (pkgNamesOf emptyAnalysis) = 0
    ∧ detectLayeredArchitecture (pkgNamesOf emptyAnalysis) = 0
    ∧ detectMicroservicePattern emptyAnalysis = 0 := by
  refine ⟨?_, ?_, ?_, ?_⟩
  · simp [detectCleanArchitecture, pkgNamesOf, emptyAnalysis, cleanPatterns, anyPkgContains]
    try norm_num
  · simp [detectMVC, pkgNamesOf, emptyAnalysis, mvcPatterns, anyPkgContains]
  · simp [detectLayeredArchitecture, pkgNamesOf, emptyAnalysis, layerPatterns, anyPkgContains]
    try norm_num
  · simp [detectMicroservicePattern, emptyAnalysis, alookup]
    try norm_num

/-- Selection result of the detector under all-zero scores. -/
theorem detectArchitecturePattern_zero (pa : ProjectAnalysis)
    (h1 : detectCleanArchitecture (pkgNamesOf pa) = 0)
    (h2 : detectMVC (pkgNamesOf pa) = 0)
    (h3 : detectLayeredArchitecture (pkgNamesOf pa) = 0)
    (h4 : detectMicroservicePattern pa = 0) :
    (detectArchitecturePattern pa).type_ = "clean"
    ∧ (detectArchitecturePattern pa).confidence = 0 := by
  unfold detectArchitecturePattern
  simp only [h1, h2, h3, h4]
  norm_num

/-- Counterexample for C7: on the empty project all four pattern scores
are 0, yet the detector returns type "clean" (with confidence 0), not
"unknown" - the "unknown" default is unconditionally overwritten. -/
theorem c7_counterexample :
    detectCleanArchitecture (pkgNamesOf emptyAnalysis) = 0
    ∧ detectMVC (pkgNamesOf emptyAnalysis) = 0
    ∧ detectLayeredArchitecture (pkgNamesOf emptyAnalysis) = 0
    ∧ detectMicroservicePattern emptyAnalysis = 0
    ∧ (detectArchitecturePattern emptyAnalysis).type_ = "clean"
    ∧ (detectArchitecturePattern emptyAnalysis).type_ ≠ "unknown"
    ∧ (detectArchitecturePattern emptyAnalysis).confidence = 0 := by
  obtain ⟨h1, h2, h3, h4⟩ := emptyAnalysis_scores_zero
  obtain ⟨ht, hc⟩ := detectArchitecturePattern_zero emptyAnalysis h1 h2 h3 h4
  refine ⟨h1, h2, h3, h4, ht, ?_, hc⟩
  rw [ht]
  decide

/-- C7 (amended): whenever all four pattern scores are 0 the detector
returns an `ArchitecturePattern` with type "clean" and confidence 0; the
initial "unknown" value is unconditionally overwritten by the
clean-architecture assignment before any comparison. -/
theorem c7_amended (pa : ProjectAnalysis)
    (h1 : detectCleanArchitecture (pkgNamesOf pa) = 0)
    (h2 : detectMVC (pkgNamesOf pa) = 0)
    (h3 : detectLayeredArchitecture (pkgNamesOf pa) = 0)
    (h4 : detectMicroservicePattern pa = 0) :
    (detectArchitecturePattern pa).type_ = "clean"
    ∧ (detectArchitecturePattern pa).confidence = 0 :=
  detectArchitecturePattern_zero pa h1 h2 h3 h4

/-- Witness for C7's amended claim at the empty project. -/
theorem c7_amended_witness :
    (detectCleanArchitecture (pkgNamesOf emptyAnalysis) = 0
      ∧ detectMVC (pkgNamesOf emptyAnalysis) = 0
      ∧ detectLayeredArchitecture (pkgNamesOf emptyAnalysis) = 0
      ∧ detectMicroservicePattern emptyAnalysis = 0)
    ∧ ((detectArchitecturePattern emptyAnalysis).type_ = "clean"
      ∧ (detectArchitecturePattern emptyAnalysis).confidence = 0) := by
  have h1 : detectCleanArchitecture (pkgNamesOf emptyAnalysis) = 0 := by
    simp [detectCleanArchitecture, pkgNamesOf, emptyAnalysis, cleanPatterns, anyPkgContains]
    try norm_num
  have h2 : detectMVC (pkgNamesOf emptyAnalysis) = 0 := by
    simp [detectMVC, pkgNamesOf, emptyAnalysis, mvcPatterns, anyPkgContains]
  have h3 : detectLayeredArchitecture (pkgNamesOf emptyAnalysis) = 0 := by
    simp [detectLayeredArchitecture, pkgNamesOf, emptyAnalysis, layerPatterns, anyPkgContains]
    try norm_num
  have h4 : detectMicroservicePattern emptyAnalysis = 0 := by
    simp [detectMicroservicePattern, emptyAnalysis, alookup]
    try norm_num
  exact ⟨⟨h1, h2, h3, h4⟩, c7_amended emptyAnalysis h1 h2 h3 h4⟩

/-! ## Claim C8 -/

/-- The C8 comment group lines. -/
def c8Lines : List String :=
  ["@route POST /api/users Create user", "@header Content-Type: application/json",
   "@body \x7b\"a\":1\x7d", "@tag users"]

/-- The endpoint the C8 group yields. -/
def c8Ep : Endpoint :=
  { method := "POST", path := "/api/users", sourceFile := "f.go",
    desc := "Create user", headers := [("Content-Type", "application/json")],
    bodyRaw := "\x7b\"a\":1\x7d", tags := ["users"], type_ := "REST" }

/-- C8: the annotation parser turns the group `@route POST /api/users`,
`@header Content-Type: application/json`, `@body {"a":1}`, `@tag users`
into exactly one endpoint with method POST, path /api/users, the header
map binding Content-Type to application/json, the literal body text and
the tag list ["users"]; and in any group declaring several routes every
emitted endpoint carries the same accumulated header map, body text and
tag list (the source gives each endpoint a fresh copy; with value
semantics this is content equality). -/
theorem c8_annotation_group_broadcast :
    groupEndpoints "f.go" c8Lines = [c8Ep]
    ∧ alookup c8Ep.headers "Content-Type" = some "application/json"
    ∧ c8Ep.bodyRaw = "\x7b\"a\":1\x7d" ∧ c8Ep.tags = ["users"]
    ∧ ∀ (src : String) (lines : List String) (e : Endpoint),
        e ∈ groupEndpoints src lines →
        e.headers = (accOf lines).headers ∧ e.bodyRaw = (accOf lines).body
        ∧ e.tags = (accOf lines).tags := by
  refine ⟨by decide, by decide, by decide, by decide, ?_⟩
  intro src lines e h
  unfold groupEndpoints at h
  obtain ⟨r, hr, hm, hp, hd, hh, hb, htg⟩ := emitRoutes_fields src _ _ _ e h
  exact ⟨hh, hb, htg⟩

/-- Witness for C8's broadcast clause at the concrete group. -/
theorem c8_annotation_group_broadcast_witness :
    c8Ep ∈ groupEndpoints "f.go" c8Lines
    ∧ (c8Ep.headers = (accOf c8Lines).headers
      ∧ c8Ep.bodyRaw = (accOf c8Lines).body ∧ c8Ep.tags = (accOf c8Lines).tags) :=
  ⟨by decide,
   c8_annotation_group_broadcast.2.2.2.2 "f.go" c8Lines c8Ep (by decide)⟩

end PostmanGen
